import Mathlib

/-!
Verification of the insight-explorer address-indexing subsystem exercised by
qa/rpc-tests/addressindex.py and qa/rpc-tests/getrawtransaction_insight.py.

The repository ships the RPC tests; the indexing implementation itself
(AddressIndexStore, SpentIndexStore, MempoolAddressIndex, QueryEngine) is not
part of the source tree. Those components are therefore modelled from the
specification, with the tests' concrete assertions as the authority on
observable behaviour wherever the two speak to the same point.
-/

namespace ZcashIndex

/-- One zcash coin in zatoshis (smallest currency unit). -/
def COIN : Int := 100000000

/-- Modelled from the spec: the two recognized spending-script classes
(pay-to-public-key-hash and pay-to-script-hash). -/
inductive AddrType where
  | p2pkh : AddrType
  | p2sh : AddrType
deriving DecidableEq

/-- Modelled from the spec: a recognized address is a script class plus its
hash; two addresses are equal iff class and hash match. -/
structure Address where
  typ : AddrType
  hash : Nat
deriving DecidableEq

/-- A reference to a transaction output: transaction id plus output index. -/
structure Outpoint where
  txid : Nat
  index : Nat
deriving DecidableEq

/-- A transaction input: either the coinbase null input, or a spend of a
previous output. The previous output's address and value are resolved
externally (spec section 4.1) and carried on the input; an unrecognized
script resolves to `none`. -/
inductive TxIn where
  | nullInput : TxIn
  | spend (prevout : Outpoint) (prevAddr : Option Address) (prevValue : Int) : TxIn
deriving DecidableEq

/-- A transaction output: value in zatoshis and the AddressCodec
classification of its script (`none` when unrecognized). -/
structure TxOut where
  value : Int
  addr : Option Address
deriving DecidableEq

/-- A transaction: id, inputs, outputs. -/
structure Tx where
  txid : Nat
  vin : List TxIn
  vout : List TxOut
deriving DecidableEq

/-- A block: its hash and its transactions. Height is positional: the block
at position i of the chain list has height i+1 (regtest genesis is height 0
and carries no indexed transactions). -/
structure Block where
  hash : Nat
  txs : List Tx
deriving DecidableEq

/-- Modelled from the spec: an AddressIndexStore entry — address, height,
transaction id, transaction position in its block, output-or-input position,
signed amount in zatoshis, and (for spends) the consumed outpoint. -/
structure AddressDelta where
  address : Address
  height : Nat
  txid : Nat
  txPos : Nat
  pos : Nat
  satoshis : Int
  spentOutpoint : Option Outpoint
deriving DecidableEq

/-- Modelled from the spec: a SpentIndexStore entry — the spending
transaction id, spending input index, and spending block height. -/
structure SpentEntry where
  spentTxId : Nat
  spentIndex : Nat
  spentHeight : Nat
deriving DecidableEq

/-- Debit deltas of a transaction's inputs, in input order starting at input
position j: coinbase null inputs are skipped, unrecognized prior addresses
are skipped, recognized ones yield a negative amount with the consumed
outpoint attached. -/
def vinDeltas (height txid txPos : Nat) : Nat → List TxIn → List AddressDelta
  | _, [] => []
  | j, TxIn.nullInput :: rest => vinDeltas height txid txPos (j+1) rest
  | j, TxIn.spend op oa v :: rest =>
      (match oa with
       | none => []
       | some ad => [⟨ad, height, txid, txPos, j, -v, some op⟩])
      ++ vinDeltas height txid txPos (j+1) rest

/-- Credit deltas of a transaction's outputs, in output order starting at
output position k: unrecognized scripts are skipped. -/
def voutDeltas (height txid txPos : Nat) : Nat → List TxOut → List AddressDelta
  | _, [] => []
  | k, o :: rest =>
      (match o.addr with
       | none => []
       | some ad => [⟨ad, height, txid, txPos, k, o.value, none⟩])
      ++ voutDeltas height txid txPos (k+1) rest

/-- Modelled from the spec: all address deltas of one transaction, debits of
its inputs first, then credits of its outputs, each in transaction order. -/
def txDeltas (height txPos : Nat) (t : Tx) : List AddressDelta :=
  vinDeltas height t.txid txPos 0 t.vin ++ voutDeltas height t.txid txPos 0 t.vout

/-- Deltas of a block's transactions, at transaction positions p, p+1, ... -/
def txsDeltas (height : Nat) : Nat → List Tx → List AddressDelta
  | _, [] => []
  | p, t :: rest => txDeltas height p t ++ txsDeltas height (p+1) rest

/-- Modelled from the spec: AddressIndexStore.applyBlock — append the
block's deltas to the ordered log as one unit. -/
def applyBlock (height : Nat) (txs : List Tx) (store : List AddressDelta) :
    List AddressDelta :=
  store ++ txsDeltas height 0 txs

/-- Build the address-index log of a chain whose first listed block sits at
height h. -/
def buildStoreFrom (h : Nat) : List Block → List AddressDelta
  | [] => []
  | b :: bs => txsDeltas h 0 b.txs ++ buildStoreFrom (h+1) bs

/-- Modelled from the spec: the AddressIndexStore contents after connecting
the given blocks in order at heights 1, 2, ... -/
def buildStore (blocks : List Block) : List AddressDelta :=
  buildStoreFrom 1 blocks

/-- Modelled from the spec: QueryEngine address→deltas — deltas for the
union of the addresses within [startH, effEnd] inclusive, where endH = 0
means no upper bound (the current chain tip); store order (height, tx
position, in-tx position) is preserved. -/
def deltasQuery (store : List AddressDelta) (addrs : List Address)
    (startH endH tip : Nat) : List AddressDelta :=
  let effEnd := if endH = 0 then tip else endH
  store.filter (fun d =>
    decide (d.address ∈ addrs) && decide (startH ≤ d.height) && decide (d.height ≤ effEnd))

/-- Modelled from the spec: QueryEngine address→balance — balance is the sum
of all deltas for the requested addresses, received the sum of the positive
ones only; multiple addresses are summed into a single pair. -/
def balanceQuery (store : List AddressDelta) (addrs : List Address) : Int × Int :=
  let ds := store.filter (fun d => decide (d.address ∈ addrs))
  ((ds.map (fun d => d.satoshis)).sum,
   ((ds.filter (fun d => decide (0 < d.satoshis))).map (fun d => d.satoshis)).sum)

/-- Remove duplicates from a list, keeping the first occurrence of each
element; `seen` accumulates the elements already emitted. -/
def dedupFirstAux : List Nat → List Nat → List Nat
  | _, [] => []
  | seen, x :: xs =>
      if x ∈ seen then dedupFirstAux seen xs
      else x :: dedupFirstAux (x :: seen) xs

/-- Remove duplicates from a list, keeping the first occurrence of each
element. -/
def dedupFirst (l : List Nat) : List Nat := dedupFirstAux [] l

/-- Modelled from the spec: QueryEngine address→txids — the transaction ids
of the range-restricted deltas, deduplicated even when one transaction
touches an address several times or several requested addresses share a
transaction. -/
def txidsQuery (store : List AddressDelta) (addrs : List Address)
    (startH endH tip : Nat) : List Nat :=
  dedupFirst ((deltasQuery store addrs startH endH tip).map (fun d => d.txid))

/-- Modelled from the spec: RPC-level range validation for getaddressdeltas —
malformed (negative) bounds are a validation error; any other bounds are
passed to the store query. -/
def getaddressdeltas (store : List AddressDelta) (addrs : List Address)
    (startI endI : Int) (tip : Nat) : Except String (List AddressDelta) :=
  if startI < 0 ∨ endI < 0 then
    Except.error "Start and end are expected to be greater than zero"
  else
    Except.ok (deltasQuery store addrs startI.toNat endI.toNat tip)

/-- Modelled from the spec: RPC-level range validation for getaddresstxids. -/
def getaddresstxids (store : List AddressDelta) (addrs : List Address)
    (startI endI : Int) (tip : Nat) : Except String (List Nat) :=
  if startI < 0 ∨ endI < 0 then
    Except.error "Start and end are expected to be greater than zero"
  else
    Except.ok (txidsQuery store addrs startI.toNat endI.toNat tip)

/-- Modelled from the spec: QueryEngine address→utxos — credit deltas of the
address whose own outpoint is not referenced as the consumed outpoint of any
debit delta for that address. -/
def utxosQuery (store : List AddressDelta) (addr : Address) : List AddressDelta :=
  store.filter (fun d =>
    decide (d.address = addr) && d.spentOutpoint.isNone &&
    !(store.any (fun d2 =>
        decide (d2.address = addr) &&
        decide (d2.spentOutpoint = some ⟨d.txid, d.pos⟩))))

/-- Modelled from the spec: a MempoolAddressIndex entry — same shape as an
AddressDelta but height-less, keyed by the owning transaction id. -/
structure MempoolDelta where
  address : Address
  txid : Nat
  satoshis : Int
deriving DecidableEq

/-- Modelled from the spec: mempool deltas of one transaction, computed the
same way as confirmed deltas — debits for the full value of each consumed
output, credits for each paid output (mempool transactions are never
coinbase). -/
def mempoolTxDeltas (t : Tx) : List MempoolDelta :=
  (t.vin.filterMap (fun i =>
    match i with
    | TxIn.nullInput => none
    | TxIn.spend _ oa v => oa.map (fun ad => ⟨ad, t.txid, -v⟩))) ++
  (t.vout.filterMap (fun o => o.addr.map (fun ad => ⟨ad, t.txid, o.value⟩)))

/-- Modelled from the spec: MempoolAddressIndex.onAccept — record the
transaction's deltas in insertion order. -/
def onAccept (mp : List MempoolDelta) (t : Tx) : List MempoolDelta :=
  mp ++ mempoolTxDeltas t

/-- Modelled from the spec: MempoolAddressIndex.onRemove — delete all deltas
of the given transaction id as a unit, regardless of removal cause. -/
def onRemove (mp : List MempoolDelta) (txid : Nat) : List MempoolDelta :=
  mp.filter (fun d => decide (d.txid ≠ txid))

/-- Modelled from the spec as constrained by the test's assertions
(addressindex.py lines 161-172): getaddressmempool walks the request's
address list in order and emits, for each listed address, that address's
current mempool deltas in insertion order; the test expects a duplicated
request address to contribute its deltas once per occurrence (three entries
for request [b, a, b]). -/
def getaddressmempool (mp : List MempoolDelta) (addrs : List Address) :
    List MempoolDelta :=
  addrs.flatMap (fun ad => mp.filter (fun d => decide (d.address = ad)))

/-- SpentIndexStore entries contributed by one transaction's inputs at the
given height, input positions j, j+1, ...: each non-null input maps its
consumed outpoint to (spending txid, spending input index, height). -/
def vinSpentEntries (txid h : Nat) : Nat → List TxIn → List (Outpoint × SpentEntry)
  | _, [] => []
  | j, TxIn.nullInput :: rest => vinSpentEntries txid h (j+1) rest
  | j, TxIn.spend op _ _ :: rest => (op, ⟨txid, j, h⟩) :: vinSpentEntries txid h (j+1) rest

/-- Spent-index entries of a whole transaction. -/
def txSpentEntries (h : Nat) (t : Tx) : List (Outpoint × SpentEntry) :=
  vinSpentEntries t.txid h 0 t.vin

/-- Spent-index entries of a list of transactions. -/
def txsSpentEntries (h : Nat) : List Tx → List (Outpoint × SpentEntry)
  | [] => []
  | t :: rest => txSpentEntries h t ++ txsSpentEntries h rest

/-- Build the spent index of a chain whose first listed block sits at
height h. -/
def buildSpentFrom (h : Nat) : List Block → List (Outpoint × SpentEntry)
  | [] => []
  | b :: bs => txsSpentEntries h b.txs ++ buildSpentFrom (h+1) bs

/-- Modelled from the spec: the SpentIndexStore contents after connecting
the given blocks in order at heights 1, 2, ... -/
def buildSpentIndex (blocks : List Block) : List (Outpoint × SpentEntry) :=
  buildSpentFrom 1 blocks

/-- Modelled from the spec: SpentIndexStore.lookup — the spent entry of an
outpoint, or `none` when the outpoint is unspent as of the current tip (not
an error). -/
def spentLookup : List (Outpoint × SpentEntry) → Outpoint → Option SpentEntry
  | [], _ => none
  | e :: rest, op => if e.1 = op then some e.2 else spentLookup rest op

/-- Does any confirmed transaction of the chain spend the outpoint? -/
def TxIn.spendsB : TxIn → Outpoint → Bool
  | TxIn.nullInput, _ => false
  | TxIn.spend op _ _, op2 => decide (op = op2)

/-- Chain-wide scan: true iff some input of some transaction of some block
consumes the outpoint. -/
def chainSpends (blocks : List Block) (op : Outpoint) : Bool :=
  blocks.any (fun b => b.txs.any (fun u => u.vin.any (fun i => i.spendsB op)))

/-- Confirmation height of a transaction id on a chain whose first listed
block sits at height h: the height of the first block containing it, or
`none` when unconfirmed. -/
def txConfHeightFrom (h : Nat) : List Block → Nat → Option Nat
  | [], _ => none
  | b :: bs, txid =>
      if b.txs.any (fun t => decide (t.txid = txid)) then some h
      else txConfHeightFrom (h+1) bs txid

/-- Confirmation height on the chain starting at height 1. -/
def txConfHeight (blocks : List Block) (txid : Nat) : Option Nat :=
  txConfHeightFrom 1 blocks txid

/-- Modelled from the spec: the fields a transaction-fetch query adds — per
input the resolved spending address and value in smallest units, per output
the spent annotation when known, and a height field once confirmed. -/
structure AugTx where
  vinInfo : Nat → Option (Address × Int)
  voutSpent : Nat → Option SpentEntry
  height : Option Nat

/-- Modelled from the spec: transaction detail augmentation — each input
carries the externally resolved address and value of the output it consumes,
each output carries its SpentIndexStore entry when one exists, and the
transaction carries its confirmation height when confirmed. -/
def augmentTx (blocks : List Block) (t : Tx) : AugTx :=
  { vinInfo := fun j =>
      match t.vin.get? j with
      | some (TxIn.spend _ (some ad) v) => some (ad, v)
      | _ => none,
    voutSpent := fun n => spentLookup (buildSpentIndex blocks) ⟨t.txid, n⟩,
    height := txConfHeight blocks t.txid }

/-- Hash of the block at the given height, when the height is on the chain. -/
def getblockhash (blocks : List Block) (h : Nat) : Option Nat :=
  (blocks.get? (h - 1)).map (fun b => b.hash)

/-- Modelled from the spec: the chainInfo wrapper around getaddressdeltas —
the plain deltas plus the requested range's start and end heights, each with
the hash of the block at exactly that height. -/
structure DeltasInfo where
  deltas : List AddressDelta
  startHeight : Nat
  startHash : Option Nat
  endHeight : Nat
  endHash : Option Nat
deriving DecidableEq

/-- Modelled from the spec: getaddressdeltas with chainInfo set. -/
def getaddressdeltasChainInfo (blocks : List Block) (addrs : List Address)
    (s e : Nat) : DeltasInfo :=
  { deltas := deltasQuery (buildStore blocks) addrs s e blocks.length,
    startHeight := s,
    startHash := getblockhash blocks s,
    endHeight := e,
    endHash := getblockhash blocks e }

/-- Flat encoding of an address type as an integer tag. -/
def encTyp : AddrType → Int
  | AddrType.p2pkh => 0
  | AddrType.p2sh => 1

/-- Inverse of `encTyp`. -/
def decTyp : Int → Option AddrType
  | 0 => some AddrType.p2pkh
  | 1 => some AddrType.p2sh
  | _ => none

/-- Flat encoding of an optional consumed outpoint as three integers. -/
def encSpentOutpoint : Option Outpoint → List Int
  | none => [0, 0, 0]
  | some op => [1, (op.txid : Int), (op.index : Int)]

/-- Modelled from the spec: the persisted record of one address delta — a
fixed-width row of ten integers. -/
def encodeDelta (d : AddressDelta) : List Int :=
  [encTyp d.address.typ, (d.address.hash : Int), (d.height : Int), (d.txid : Int),
   (d.txPos : Int), (d.pos : Int), d.satoshis] ++ encSpentOutpoint d.spentOutpoint

/-- Modelled from the spec: the persisted AddressIndexStore — the ordered
delta log written row by row. -/
def encodeStore : List AddressDelta → List Int
  | [] => []
  | d :: ds => encodeDelta d ++ encodeStore ds

/-- Read the persisted AddressIndexStore back, row by row; any malformed row
fails the whole load. -/
def decodeStore : List Int → Option (List AddressDelta)
  | [] => some []
  | t :: hsh :: h :: tx :: tp :: p :: s :: f :: otx :: oi :: rest => do
      let ty ← decTyp t
      let sp ←
        (match f with
         | 0 => some (none : Option Outpoint)
         | 1 => some (some ⟨otx.toNat, oi.toNat⟩)
         | _ => none)
      let rest2 ← decodeStore rest
      pure (⟨⟨ty, hsh.toNat⟩, h.toNat, tx.toNat, tp.toNat, p.toNat, s, sp⟩ :: rest2)
  | _ => none

/-- Modelled from the spec: the persisted SpentIndexStore — one fixed-width
row of five naturals per entry. -/
def encodeSpent : List (Outpoint × SpentEntry) → List Nat
  | [] => []
  | (op, e) :: rest =>
      op.txid :: op.index :: e.spentTxId :: e.spentIndex :: e.spentHeight ::
        encodeSpent rest

/-- Read the persisted SpentIndexStore back, row by row. -/
def decodeSpent : List Nat → Option (List (Outpoint × SpentEntry))
  | [] => some []
  | a :: b :: c :: d :: e :: rest => do
      let rest2 ← decodeSpent rest
      pure ((⟨a, b⟩, ⟨c, d, e⟩) :: rest2)
  | _ => none

/-- The whole index state of a node: the two persistent stores and the
transient mempool index. -/
structure NodeState where
  store : List AddressDelta
  spent : List (Outpoint × SpentEntry)
  mempool : List MempoolDelta
deriving DecidableEq

/-- Modelled from the spec: what a node shutdown writes to disk — the two
persistent stores; the MempoolAddressIndex is never persisted. -/
def persistNode (st : NodeState) : List Int × List Nat :=
  (encodeStore st.store, encodeSpent st.spent)

/-- Modelled from the spec: node restart — reload both persistent stores
from their on-disk encodings (no blocks are replayed) and start with an
empty mempool index. -/
def restartNode (p : List Int × List Nat) : Option NodeState := do
  let s ← decodeStore p.1
  let sp ← decodeSpent p.2
  pure ⟨s, sp, []⟩

/-! Concrete data mirroring the scenarios of the RPC tests. -/

/-- The regtest mining-reward address (pay-to-public-key-hash). -/
def minerAddr : Address := ⟨AddrType.p2pkh, 1⟩

/-- The regtest founders-reward address (pay-to-script-hash). -/
def foundersAddr : Address := ⟨AddrType.p2sh, 2⟩

/-- The fresh wallet address `a` of the test. -/
def aAddr : Address := ⟨AddrType.p2pkh, 10⟩

/-- The recipient address `b` of the test. -/
def bAddr : Address := ⟨AddrType.p2pkh, 11⟩

/-- The change address of the send-3 transaction. -/
def changeAddr : Address := ⟨AddrType.p2pkh, 12⟩

/-- The fixed pay-to-script-hash address paid twice in one transaction. -/
def dupAddr : Address := ⟨AddrType.p2sh, 97⟩

/-- A regtest coinbase transaction: 10 COIN mining reward to the miner
address, 2.5 COIN founders reward to the founders address. -/
def coinbaseTx (i : Nat) : Tx :=
  ⟨i, [TxIn.nullInput], [⟨10 * COIN, some minerAddr⟩, ⟨250000000, some foundersAddr⟩]⟩

/-- The 105-block mined chain of the test's opening scenario. -/
def chain105 : List Block :=
  (List.range 105).map (fun i => ⟨500 + i, [coinbaseTx i]⟩)

/-- The transaction spending address a's 4-COIN output (txid 104, output 0)
to pay 3 COIN to b plus change. -/
def tx9 : Tx :=
  ⟨109, [TxIn.spend ⟨104, 0⟩ (some aAddr) (4 * COIN)],
   [⟨3 * COIN, some bAddr⟩, ⟨90000000, some changeAddr⟩]⟩

/-- A five-block chain: blocks 1-4 pay 1,2,3,4 COIN to address a, block 5
contains the transaction spending the 4-COIN output. -/
def chainC7 : List Block :=
  [⟨901, [⟨101, [TxIn.spend ⟨61, 0⟩ none (10 * COIN)], [⟨1 * COIN, some aAddr⟩]⟩]⟩,
   ⟨902, [⟨102, [TxIn.spend ⟨62, 0⟩ none (10 * COIN)], [⟨2 * COIN, some aAddr⟩]⟩]⟩,
   ⟨903, [⟨103, [TxIn.spend ⟨63, 0⟩ none (10 * COIN)], [⟨3 * COIN, some aAddr⟩]⟩]⟩,
   ⟨904, [⟨104, [TxIn.spend ⟨64, 0⟩ none (10 * COIN)], [⟨4 * COIN, some aAddr⟩]⟩]⟩,
   ⟨905, [tx9]⟩]

/-- The mempool index right after the send-3 transaction is accepted. -/
def mp0 : List MempoolDelta := onAccept [] tx9

/-- The mempool credit of address b in `mp0`. -/
def bDelta : MempoolDelta := ⟨bAddr, 109, 3 * COIN⟩

/-- The mempool debit of address a in `mp0`. -/
def aDelta : MempoolDelta := ⟨aAddr, 109, -(4 * COIN)⟩

/-- A transaction paying the same address in two outputs of one
transaction (1 COIN and 2 COIN to `dupAddr`). -/
def txDup : Tx :=
  ⟨200, [TxIn.spend ⟨104, 0⟩ none (4 * COIN)],
   [⟨1 * COIN, some dupAddr⟩, ⟨2 * COIN, some dupAddr⟩]⟩

/-- The one-block chain containing `txDup`. -/
def chainDup : List Block := [⟨700, [txDup]⟩]

/-! Helper lemmas. -/

/-- Filters agree when their predicates agree on the list's members. -/
theorem filter_ext_mem {α : Type} {p q : α → Bool} :
    ∀ l : List α, (∀ x ∈ l, p x = q x) → l.filter p = l.filter q := by
  intro l
  induction l with
  | nil => intro _; rfl
  | cons x xs ih =>
    intro hpq
    have hx := hpq x (List.mem_cons_self x xs)
    have hrest := ih (fun y hy => hpq y (List.mem_cons_of_mem x hy))
    simp only [List.filter_cons, hx, hrest]

/-- A filter whose predicate fails on every member is empty. -/
theorem filter_eq_nil_of {α : Type} {p : α → Bool} :
    ∀ l : List α, (∀ x ∈ l, p x = false) → l.filter p = [] := by
  intro l
  induction l with
  | nil => intro _; rfl
  | cons x xs ih =>
    intro hp
    have hx := hp x (List.mem_cons_self x xs)
    have hrest := ih (fun y hy => hp y (List.mem_cons_of_mem x hy))
    simp only [List.filter_cons, hx, hrest, Bool.false_eq_true, if_false]

/-- Every input delta of a transaction carries the block's height. -/
theorem height_of_mem_vinDeltas {h txid tp : Nat} {d : AddressDelta} :
    ∀ (l : List TxIn) (j : Nat), d ∈ vinDeltas h txid tp j l → d.height = h := by
  intro l
  induction l with
  | nil => intro j hm; simp [vinDeltas] at hm
  | cons i rest ih =>
    intro j hm
    cases i with
    | nullInput => exact ih (j + 1) (by simpa [vinDeltas] using hm)
    | spend op oa v =>
      cases oa with
      | none => exact ih (j + 1) (by simpa [vinDeltas] using hm)
      | some ad =>
        simp only [vinDeltas, List.singleton_append, List.mem_cons] at hm
        rcases hm with hm | hm
        · subst hm; rfl
        · exact ih (j + 1) hm

/-- Every output delta of a transaction carries the block's height. -/
theorem height_of_mem_voutDeltas {h txid tp : Nat} {d : AddressDelta} :
    ∀ (l : List TxOut) (k : Nat), d ∈ voutDeltas h txid tp k l → d.height = h := by
  intro l
  induction l with
  | nil => intro k hm; simp [voutDeltas] at hm
  | cons o rest ih =>
    intro k hm
    cases ho : o.addr with
    | none =>
      rw [voutDeltas, ho] at hm
      exact ih (k + 1) (by simpa using hm)
    | some ad =>
      rw [voutDeltas, ho] at hm
      simp only [List.singleton_append, List.mem_cons] at hm
      rcases hm with hm | hm
      · subst hm; rfl
      · exact ih (k + 1) hm

/-- Every delta of a block's transactions carries the block's height. -/
theorem height_of_mem_txsDeltas {h : Nat} {d : AddressDelta} :
    ∀ (l : List Tx) (p : Nat), d ∈ txsDeltas h p l → d.height = h := by
  intro l
  induction l with
  | nil => intro p hm; simp [txsDeltas] at hm
  | cons t rest ih =>
    intro p hm
    rw [txsDeltas, List.mem_append] at hm
    rcases hm with hm | hm
    · rw [txDeltas, List.mem_append] at hm
      rcases hm with hm | hm
      · exact height_of_mem_vinDeltas t.vin 0 hm
      · exact height_of_mem_voutDeltas t.vout 0 hm
    · exact ih (p + 1) hm

/-- Heights of the delta log of a chain starting at height h lie in
[h, h + number of blocks). -/
theorem height_of_mem_buildStoreFrom {d : AddressDelta} :
    ∀ (bs : List Block) (h : Nat), d ∈ buildStoreFrom h bs →
      h ≤ d.height ∧ d.height < h + bs.length := by
  intro bs
  induction bs with
  | nil => intro h hm; simp [buildStoreFrom] at hm
  | cons b rest ih =>
    intro h hm
    rw [buildStoreFrom, List.mem_append] at hm
    rcases hm with hm | hm
    · have := height_of_mem_txsDeltas b.txs 0 hm
      simp only [List.length_cons]
      omega
    · have := ih (h + 1) hm
      simp only [List.length_cons]
      omega

/-- Every delta of a built chain has height between 1 and the tip. -/
theorem height_of_mem_buildStore {d : AddressDelta} {blocks : List Block}
    (hm : d ∈ buildStore blocks) : 1 ≤ d.height ∧ d.height ≤ blocks.length := by
  have := height_of_mem_buildStoreFrom blocks 1 hm
  omega

/-- Membership in the deduplicated output: in the input and not yet seen. -/
theorem mem_dedupFirstAux {y : Nat} :
    ∀ (l seen : List Nat), y ∈ dedupFirstAux seen l ↔ y ∈ l ∧ y ∉ seen := by
  intro l
  induction l with
  | nil => intro seen; simp [dedupFirstAux]
  | cons x xs ih =>
    intro seen
    by_cases hx : x ∈ seen
    · rw [dedupFirstAux, if_pos hx, ih]
      constructor
      · rintro ⟨h1, h2⟩; exact ⟨List.mem_cons_of_mem _ h1, h2⟩
      · rintro ⟨h1, h2⟩
        rcases List.mem_cons.mp h1 with h | h
        · subst h; exact absurd hx h2
        · exact ⟨h, h2⟩
    · rw [dedupFirstAux, if_neg hx]
      constructor
      · intro hm
        rcases List.mem_cons.mp hm with h | h
        · subst h; exact ⟨List.mem_cons_self _ _, hx⟩
        · have h2 := (ih (x :: seen)).mp h
          exact ⟨List.mem_cons_of_mem _ h2.1,
                 fun hy => h2.2 (List.mem_cons_of_mem _ hy)⟩
      · rintro ⟨h1, h2⟩
        rcases List.mem_cons.mp h1 with h | h
        · subst h; exact List.mem_cons_self _ _
        · by_cases hxy : y = x
          · subst hxy; exact List.mem_cons_self _ _
          · refine List.mem_cons_of_mem _ ((ih (x :: seen)).mpr ⟨h, ?_⟩)
            intro hc
            exact (List.mem_cons.mp hc).elim hxy h2

/-- Deduplication keeping first occurrences yields a duplicate-free list. -/
theorem nodup_dedupFirstAux : ∀ (l seen : List Nat), (dedupFirstAux seen l).Nodup := by
  intro l
  induction l with
  | nil => intro seen; simp [dedupFirstAux]
  | cons x xs ih =>
    intro seen
    by_cases hx : x ∈ seen
    · rw [dedupFirstAux, if_pos hx]; exact ih seen
    · rw [dedupFirstAux, if_neg hx]
      refine List.nodup_cons.mpr ⟨?_, ih (x :: seen)⟩
      intro hmem
      exact ((mem_dedupFirstAux xs (x :: seen)).mp hmem).2 (List.mem_cons_self _ _)

/-- `dedupFirst` yields a duplicate-free list. -/
theorem nodup_dedupFirst (l : List Nat) : (dedupFirst l).Nodup :=
  nodup_dedupFirstAux l []

/-- On a query with end height 0, the effective upper bound of the deltas
query is the chain tip. -/
theorem deltasQuery_end_zero (store : List AddressDelta) (addrs : List Address)
    (s tip : Nat) :
    deltasQuery store addrs s 0 tip =
      store.filter (fun d =>
        decide (d.address ∈ addrs) && decide (s ≤ d.height) &&
          decide (d.height ≤ tip)) := rfl

/-! Claim theorems. -/

set_option maxRecDepth 40000 in
/-- C1: for every set of requested addresses and every prefix of connected
blocks, the balance query returns balance equal to the sum of all deltas for
those addresses and received equal to the sum of the positive deltas only,
with multiple requested addresses summed into one pair; concretely, after
mining 105 blocks the miner address has balance = received = 105*10*COIN,
the founders address 105*2.5*COIN, and their two-address query the sum of
both. -/
theorem c1_balance_is_sum_of_deltas :
    (∀ (blocks : List Block) (addrs : List Address),
      balanceQuery (buildStore blocks) addrs =
        (((deltasQuery (buildStore blocks) addrs 0 0 blocks.length).map
            (fun d => d.satoshis)).sum,
         (((deltasQuery (buildStore blocks) addrs 0 0 blocks.length).filter
             (fun d => decide (0 < d.satoshis))).map (fun d => d.satoshis)).sum))
    ∧ balanceQuery (buildStore chain105) [minerAddr] =
        (105 * 10 * COIN, 105 * 10 * COIN)
    ∧ balanceQuery (buildStore chain105) [foundersAddr] =
        (26250000000, 26250000000)
    ∧ balanceQuery (buildStore chain105) [foundersAddr, minerAddr] =
        (105 * 10 * COIN + 26250000000, 105 * 10 * COIN + 26250000000) := by
  refine ⟨?_, by decide, by decide, by decide⟩
  intro blocks addrs
  have hfil :
      (buildStore blocks).filter (fun d =>
        decide (d.address ∈ addrs) && decide (0 ≤ d.height) &&
          decide (d.height ≤ blocks.length)) =
      (buildStore blocks).filter (fun d => decide (d.address ∈ addrs)) := by
    apply filter_ext_mem
    intro d hd
    have hh := (height_of_mem_buildStore hd).2
    simp [hh]
  rw [deltasQuery_end_zero, hfil]
  rfl

/-- C2: the txids query never returns duplicate transaction ids, even when a
single transaction pays the same address in several outputs or several
requested addresses are touched by the same transaction; concretely, a
transaction paying one address in two outputs contributes exactly one entry
(and both credits to the balance). -/
theorem c2_txids_no_duplicates :
    (∀ (store : List AddressDelta) (addrs : List Address) (s e tip : Nat),
      (txidsQuery store addrs s e tip).Nodup)
    ∧ txidsQuery (buildStore chainDup) [dupAddr] 0 0 1 = [200]
    ∧ balanceQuery (buildStore chainDup) [dupAddr] = (3 * COIN, 3 * COIN) := by
  refine ⟨?_, by decide, by decide⟩
  intro store addrs s e tip
  exact nodup_dedupFirst _

/-- C3 counterexample: in the test's scenario (one mempool transaction
debiting a by 4 COIN and crediting b by 3 COIN), the query listing b twice,
[b, a, b], returns three entries — b's delta appears twice and the two
same-address entries are not adjacent — so duplicate request addresses are
not treated as one. -/
theorem c3_counterexample_duplicates_not_collapsed :
    getaddressmempool mp0 [bAddr, aAddr, bAddr] = [bDelta, aDelta, bDelta]
    ∧ (getaddressmempool mp0 [bAddr, aAddr, bAddr]).length = 3
    ∧ (getaddressmempool mp0 [bAddr, aAddr, bAddr]).count bDelta = 2
    ∧ getaddressmempool mp0 [bAddr, aAddr, bAddr] ≠
        getaddressmempool mp0 [bAddr, aAddr] := by
  decide

/-- C3 amended: the mempool query walks the request's address list in order
and emits each listed address's matching deltas once per occurrence, grouped
per occurrence; duplicate addresses in a request are repeated, not
collapsed (the test expects [b-credit, a-debit, b-credit] for request
[b, a, b], and the single-address form returns just that address's
deltas). -/
theorem c3_amended_query_concatenates_per_request_address :
    (∀ (mp : List MempoolDelta) (addrs1 addrs2 : List Address),
      getaddressmempool mp (addrs1 ++ addrs2) =
        getaddressmempool mp addrs1 ++ getaddressmempool mp addrs2)
    ∧ (∀ (mp : List MempoolDelta) (ad : Address) (addrs : List Address),
      getaddressmempool mp (ad :: addrs) =
        mp.filter (fun d => decide (d.address = ad)) ++ getaddressmempool mp addrs)
    ∧ getaddressmempool mp0 [bAddr, aAddr, bAddr] = [bDelta, aDelta, bDelta]
    ∧ getaddressmempool mp0 [aAddr] = [aDelta] := by
  refine ⟨?_, ?_, by decide, by decide⟩
  · intro mp addrs1 addrs2
    simp [getaddressmempool]
  · intro mp ad addrs
    simp [getaddressmempool]

/-- C4: a height range with startHeight > endHeight and both nonzero yields
an empty result, not an error, while a malformed (negative) bound yields a
validation error. -/
theorem c4_inverted_range_empty_negative_error
    (store : List AddressDelta) (addrs : List Address) (s e : Int) (tip : Nat) :
    (0 < e → e < s → getaddresstxids store addrs s e tip = Except.ok [])
    ∧ ((s < 0 ∨ e < 0) → getaddresstxids store addrs s e tip =
        Except.error "Start and end are expected to be greater than zero") := by
  constructor
  · intro he hlt
    have hnotneg : ¬(s < 0 ∨ e < 0) := by omega
    rw [getaddresstxids, if_neg hnotneg]
    have hene : ¬(e.toNat = 0) := by omega
    have hfil : store.filter (fun d =>
        decide (d.address ∈ addrs) && decide (s.toNat ≤ d.height) &&
          decide (d.height ≤ e.toNat)) = [] := by
      apply filter_eq_nil_of
      intro d _
      have : ¬(s.toNat ≤ d.height ∧ d.height ≤ e.toNat) := by omega
      by_cases h1 : s.toNat ≤ d.height
      · have h2 : ¬(d.height ≤ e.toNat) := fun h2 => this ⟨h1, h2⟩
        simp [h2]
      · simp [h1]
    rw [txidsQuery, deltasQuery]
    simp only [if_neg hene, hfil]
    rfl
  · intro hneg
    rw [getaddresstxids, if_pos hneg]

/-- C4 witness: on the concrete five-block chain, the range 106..105 (start
above end, both nonzero) yields an empty ok result, and a negative start
yields the validation error. -/
theorem c4_witness :
    getaddresstxids (buildStore chainC7) [aAddr] 106 105 5 = Except.ok []
    ∧ getaddresstxids (buildStore chainC7) [aAddr] (-1) 105 5 =
        Except.error "Start and end are expected to be greater than zero" :=
  ⟨(c4_inverted_range_empty_negative_error (buildStore chainC7) [aAddr] 106 105 5).1
      (by decide) (by decide),
   (c4_inverted_range_empty_negative_error (buildStore chainC7) [aAddr] (-1) 105 5).2
      (Or.inl (by decide))⟩

/-- C5: a range query with endHeight = 0 returns exactly what the same query
with endHeight set to the current tip height returns, for both the deltas
and the txids queries. -/
theorem c5_end_zero_equals_tip
    (store : List AddressDelta) (addrs : List Address) (s tip : Nat) :
    deltasQuery store addrs s 0 tip = deltasQuery store addrs s tip tip
    ∧ txidsQuery store addrs s 0 tip = txidsQuery store addrs s tip tip := by
  have hd : deltasQuery store addrs s 0 tip = deltasQuery store addrs s tip tip := by
    by_cases h : tip = 0
    · subst h; rfl
    · simp [deltasQuery, h]
  exact ⟨hd, by rw [txidsQuery, txidsQuery, hd]⟩

/-- Reloading the persisted address-index log restores it exactly. -/
theorem decodeStore_encodeStore : ∀ s : List AddressDelta,
    decodeStore (encodeStore s) = some s := by
  intro s
  induction s with
  | nil => rfl
  | cons d ds ih =>
    obtain ⟨⟨ty, hsh⟩, h, tx, tp, p, sat, sp⟩ := d
    cases ty <;> cases sp <;>
      simp [encodeStore, encodeDelta, encSpentOutpoint, encTyp, decodeStore,
            decTyp, ih, Int.toNat_natCast]

/-- Reloading the persisted spent index restores it exactly. -/
theorem decodeSpent_encodeSpent : ∀ s : List (Outpoint × SpentEntry),
    decodeSpent (encodeSpent s) = some s := by
  intro s
  induction s with
  | nil => rfl
  | cons e es ih =>
    obtain ⟨⟨a, b⟩, ⟨c, d, f⟩⟩ := e
    simp [encodeSpent, decodeSpent, ih]

/-- C6: stopping and restarting the node leaves every index query result
unchanged without replaying blocks: the reloaded state exists, its balance,
received, and txids answers for any fixed addresses are identical to their
pre-shutdown values, spent-index lookups are likewise preserved, and the
mempool index starts empty (it is never persisted). -/
theorem c6_restart_preserves_queries (st : NodeState) :
    ∃ st2 : NodeState, restartNode (persistNode st) = some st2
      ∧ (∀ addrs : List Address, balanceQuery st2.store addrs = balanceQuery st.store addrs)
      ∧ (∀ (addrs : List Address) (s e tip : Nat),
          txidsQuery st2.store addrs s e tip = txidsQuery st.store addrs s e tip)
      ∧ (∀ op : Outpoint, spentLookup st2.spent op = spentLookup st.spent op)
      ∧ st2.mempool = [] := by
  refine ⟨⟨st.store, st.spent, []⟩, ?_, fun _ => rfl, fun _ _ _ _ => rfl, fun _ => rfl, rfl⟩
  simp [restartNode, persistNode, decodeStore_encodeStore, decodeSpent_encodeSpent]

/-- C7: while the send-3 transaction is unconfirmed, the mempool query shows
a debit of the full consumed 4-COIN output for the sender and a credit of
the paid 3 COIN for the recipient; once it is removed as mined, the mempool
query for those addresses is empty, and the utxos query on the mined chain
no longer includes the consumed 4-COIN output (only the 1, 2 and 3 COIN
outputs remain). -/
theorem c7_mempool_lifecycle :
    getaddressmempool mp0 [aAddr] = [⟨aAddr, 109, -(4 * COIN)⟩]
    ∧ getaddressmempool mp0 [bAddr] = [⟨bAddr, 109, 3 * COIN⟩]
    ∧ getaddressmempool (onRemove mp0 109) [bAddr, aAddr] = []
    ∧ utxosQuery (buildStore chainC7) aAddr =
        [⟨aAddr, 1, 101, 0, 0, 1 * COIN, none⟩,
         ⟨aAddr, 2, 102, 0, 0, 2 * COIN, none⟩,
         ⟨aAddr, 3, 103, 0, 0, 3 * COIN, none⟩] := by
  decide

/-- A spent-index lookup succeeds exactly when some recorded entry carries
the outpoint. -/
theorem isSome_spentLookup (op : Outpoint) :
    ∀ idx : List (Outpoint × SpentEntry),
      (spentLookup idx op).isSome = idx.any (fun e => decide (e.1 = op)) := by
  intro idx
  induction idx with
  | nil => rfl
  | cons e rest ih =>
    by_cases h : e.1 = op
    · simp [spentLookup, h]
    · simp [spentLookup, h, ih]

/-- The spent entries of a transaction's inputs mention an outpoint exactly
when one of the inputs consumes it, at any starting input position. -/
theorem any_vinSpentEntries (op : Outpoint) (txid h : Nat) :
    ∀ (l : List TxIn) (j : Nat),
      (vinSpentEntries txid h j l).any (fun e => decide (e.1 = op)) =
        l.any (fun i => i.spendsB op) := by
  intro l
  induction l with
  | nil => intro j; rfl
  | cons i rest ih =>
    intro j
    cases i with
    | nullInput => simp [vinSpentEntries, TxIn.spendsB, ih]
    | spend op2 oa v => simp [vinSpentEntries, TxIn.spendsB, ih]

/-- The spent entries of a block's transactions mention an outpoint exactly
when one of their inputs consumes it. -/
theorem any_txsSpentEntries (op : Outpoint) (h : Nat) :
    ∀ l : List Tx,
      (txsSpentEntries h l).any (fun e => decide (e.1 = op)) =
        l.any (fun u => u.vin.any (fun i => i.spendsB op)) := by
  intro l
  induction l with
  | nil => rfl
  | cons t rest ih =>
    simp [txsSpentEntries, txSpentEntries, List.any_append,
          any_vinSpentEntries, ih]

/-- The built spent index mentions an outpoint exactly when some input of
some block of the chain consumes it, whatever the starting height. -/
theorem any_buildSpentFrom (op : Outpoint) :
    ∀ (bs : List Block) (h : Nat),
      (buildSpentFrom h bs).any (fun e => decide (e.1 = op)) =
        bs.any (fun b => b.txs.any (fun u => u.vin.any (fun i => i.spendsB op))) := by
  intro bs
  induction bs with
  | nil => intro h; rfl
  | cons b rest ih =>
    intro h
    simp [buildSpentFrom, List.any_append, any_txsSpentEntries, ih]

/-- The confirmation-height scan succeeds exactly when some block contains
the transaction id, whatever the starting height. -/
theorem isSome_txConfHeightFrom (txid : Nat) :
    ∀ (bs : List Block) (h : Nat),
      (txConfHeightFrom h bs txid).isSome =
        bs.any (fun b => b.txs.any (fun t => decide (t.txid = txid))) := by
  intro bs
  induction bs with
  | nil => intro h; rfl
  | cons b rest ih =>
    intro h
    by_cases hc : b.txs.any (fun t => decide (t.txid = txid)) = true
    · simp [txConfHeightFrom, hc]
    · simp [txConfHeightFrom, hc, ih]

/-- C8: on a transaction fetch, the height field is present exactly when
some connected block contains the transaction; an output's spent annotation
is present exactly when some confirmed transaction's input consumes that
output; and each input carries the externally resolved spending address and
value in smallest units of the output it consumes. -/
theorem c8_transaction_augmentation (blocks : List Block) (t : Tx) :
    ((augmentTx blocks t).height).isSome =
        blocks.any (fun b => b.txs.any (fun u => decide (u.txid = t.txid)))
    ∧ (∀ n : Nat, ((augmentTx blocks t).voutSpent n).isSome =
        chainSpends blocks ⟨t.txid, n⟩)
    ∧ (∀ (j : Nat) (op : Outpoint) (oa : Option Address) (v : Int),
        t.vin.get? j = some (TxIn.spend op oa v) →
        (augmentTx blocks t).vinInfo j = oa.map (fun ad => (ad, v))) := by
  refine ⟨?_, ?_, ?_⟩
  · exact isSome_txConfHeightFrom t.txid blocks 1
  · intro n
    show (spentLookup (buildSpentIndex blocks) ⟨t.txid, n⟩).isSome = _
    rw [isSome_spentLookup, buildSpentIndex, any_buildSpentFrom]
    rfl
  · intro j op oa v hj
    show (match t.vin.get? j with
          | some (TxIn.spend _ (some ad) v2) => some (ad, v2)
          | _ => none) = oa.map (fun ad => (ad, v))
    rw [hj]
    cases oa <;> rfl

/-- C8 witness: on the concrete five-block chain, the send transaction's
input 0 resolves to address a with 4 COIN, the transaction is confirmed, the
consumed outpoint (txid 104, output 0) is annotated as spent, and output 0 of
the send transaction itself is unspent. -/
theorem c8_transaction_augmentation_witness :
    (augmentTx chainC7 tx9).vinInfo 0 = some (aAddr, 4 * COIN)
    ∧ ((augmentTx chainC7 tx9).height).isSome = true
    ∧ ((augmentTx chainC7 (⟨104, [TxIn.spend ⟨64, 0⟩ none (10 * COIN)],
          [⟨4 * COIN, some aAddr⟩]⟩ : Tx)).voutSpent 0).isSome = true
    ∧ ((augmentTx chainC7 tx9).voutSpent 0).isSome = false := by
  have h := c8_transaction_augmentation chainC7 tx9
  refine ⟨?_, ?_, ?_, ?_⟩
  · exact h.2.2 0 ⟨104, 0⟩ (some aAddr) (4 * COIN) rfl
  · rw [h.1]; decide
  · rw [(c8_transaction_augmentation chainC7 _).2.1 0]; decide
  · rw [h.2.1 0]; decide

/-- C9: with the chainInfo flag set, the deltas query returns a wrapper
whose deltas field equals the plain query's result and whose start and end
objects carry the requested heights together with the hashes of the blocks
at exactly those heights. -/
theorem c9_chaininfo_wrapper (blocks : List Block) (addrs : List Address)
    (s e : Nat) :
    (getaddressdeltasChainInfo blocks addrs s e).deltas =
        deltasQuery (buildStore blocks) addrs s e blocks.length
    ∧ (getaddressdeltasChainInfo blocks addrs s e).startHeight = s
    ∧ (getaddressdeltasChainInfo blocks addrs s e).endHeight = e
    ∧ (∀ hb : s - 1 < blocks.length,
        (getaddressdeltasChainInfo blocks addrs s e).startHash =
          some ((blocks.get ⟨s - 1, hb⟩).hash))
    ∧ (∀ hb : e - 1 < blocks.length,
        (getaddressdeltasChainInfo blocks addrs s e).endHash =
          some ((blocks.get ⟨e - 1, hb⟩).hash)) := by
  refine ⟨rfl, rfl, rfl, ?_, ?_⟩
  · intro hb
    show (blocks.get? (s - 1)).map (fun b => b.hash) = _
    rw [List.get?_eq_get hb]
    rfl
  · intro hb
    show (blocks.get? (e - 1)).map (fun b => b.hash) = _
    rw [List.get?_eq_get hb]
    rfl

/-- C9 witness: on the concrete five-block chain, querying the range 1..5
with chainInfo yields the plain deltas plus the hashes of blocks 1 and 5. -/
theorem c9_chaininfo_wrapper_witness :
    (getaddressdeltasChainInfo chainC7 [aAddr] 1 5).deltas =
        deltasQuery (buildStore chainC7) [aAddr] 1 5 chainC7.length
    ∧ (getaddressdeltasChainInfo chainC7 [aAddr] 1 5).startHash = some 901
    ∧ (getaddressdeltasChainInfo chainC7 [aAddr] 1 5).endHash = some 905 := by
  have h := c9_chaininfo_wrapper chainC7 [aAddr] 1 5
  refine ⟨h.1, ?_, ?_⟩
  · rw [h.2.2.2.1 (by decide)]; rfl
  · rw [h.2.2.2.2 (by decide)]; rfl

/-- C10: a range query whose nonzero end height lies beyond the current tip
succeeds (no validation error) and returns exactly the tip-bounded query's
result. -/
theorem c10_end_beyond_tip (blocks : List Block) (addrs : List Address)
    (s e : Int) (hs : 0 ≤ s) (he : (blocks.length : Int) < e) :
    getaddressdeltas (buildStore blocks) addrs s e blocks.length =
      Except.ok (deltasQuery (buildStore blocks) addrs s.toNat blocks.length
        blocks.length) := by
  have hnotneg : ¬(s < 0 ∨ e < 0) := by omega
  rw [getaddressdeltas, if_neg hnotneg]
  have hene : ¬(e.toNat = 0) := by omega
  have htipe : blocks.length < e.toNat := by omega
  congr 1
  rw [deltasQuery, deltasQuery]
  simp only [if_neg hene]
  by_cases htip : blocks.length = 0
  · simp only [htip, if_pos rfl]
    apply filter_ext_mem
    intro d hd
    have hh := (height_of_mem_buildStore hd).2
    rw [htip] at hh
    have h1 : d.height ≤ e.toNat := by omega
    have h2 : d.height ≤ 0 := hh
    simp [h1, h2]
  · simp only [if_neg htip]
    apply filter_ext_mem
    intro d hd
    have hh := (height_of_mem_buildStore hd).2
    have h1 : d.height ≤ e.toNat := by omega
    simp [h1, hh]

/-- C10 witness: on the concrete five-block chain (tip 5), the range 2..99
succeeds and equals the range 2..5 query. -/
theorem c10_end_beyond_tip_witness :
    getaddressdeltas (buildStore chainC7) [aAddr] 2 99 chainC7.length =
      Except.ok (deltasQuery (buildStore chainC7) [aAddr] 2 chainC7.length
        chainC7.length) :=
  c10_end_beyond_tip chainC7 [aAddr] 2 99 (by decide) (by decide)

end ZcashIndex
